/-
Verification of the application-variable store
(`engine/api/application/application_variable.go`): a secret-aware
key/value variable store scoped to an application, with transparent
encryption of secret values, placeholder redaction on unprivileged
reads, and a versioned audit trail.

The Go file is shallowly embedded: the database is an explicit record
of table contents, each Go function becomes a pure function from that
state, and fallible operations return `Except`.  External collaborators
that the repository does not ship under `src/` (the secret codec, the
`sdk` helpers, JSON and base64 primitives, `UpdateLastModified`) are
modelled from the specification at their interface, as marked on each
definition.
-/
import Mathlib

namespace Cds

/-- Modelled from the spec: the `sdk` variable kinds — "one of an
enumerated set of variable kinds; exactly one subset of kinds is
flagged secret".  The secret subset is `PasswordVariable` and
`KeyVariable`. -/
inductive VariableType where
  | StringVariable
  | TextVariable
  | PasswordVariable
  | KeyVariable
deriving DecidableEq, Repr

/-- Modelled from the spec: `sdk.NeedPlaceholder`, true exactly on the
secret-kind subset. -/
def NeedPlaceholder : VariableType → Bool
  | .PasswordVariable => true
  | .KeyVariable => true
  | _ => false

/-- Modelled from the spec: `sdk.PasswordPlaceholder`, the fixed
redaction sentinel (the spec's scenario shows `"**********"`). -/
def PasswordPlaceholder : String := "**********"

/-- Modelled from the spec: `sdk.VariableTypeFromString`, parsing the
persisted kind column back into a kind. -/
def VariableTypeFromString (s : String) : VariableType :=
  if s = "password" then .PasswordVariable
  else if s = "key" then .KeyVariable
  else if s = "text" then .TextVariable
  else .StringVariable

/-- Modelled from the spec: the string form of a kind persisted in the
`var_type` column (`string(variable.Type)` in the code). -/
def VariableTypeToString : VariableType → String
  | .StringVariable => "string"
  | .TextVariable => "text"
  | .PasswordVariable => "password"
  | .KeyVariable => "key"

/-- Modelled from the spec: the opaque symmetric-encryption primitive of
the Secret Codec, specified only at its interface: an injective
transformation of the plaintext whose output is not the plaintext and
which `decryptStr` inverts exactly. -/
def encryptStr (p : String) : String :=
  String.mk ('e' :: 'n' :: 'c' :: ':' :: p.data)

/-- Modelled from the spec: inverse of `encryptStr`; fails on a blob
that is not a well-formed encryption. -/
def decryptStr (c : String) : Option String :=
  match c.data with
  | 'e' :: 'n' :: 'c' :: ':' :: rest => some (String.mk rest)
  | _ => none

/-- Modelled from the spec (§4.1): `secret.EncryptS`.  For non-secret
kinds the clear column holds the plaintext and the cipher column is
empty; for secret kinds the clear column is empty/null and the cipher
column holds the encrypted blob. -/
def EncryptS (t : VariableType) (value : String) :
    Except String (Option String × String) :=
  if NeedPlaceholder t then .ok (none, encryptStr value)
  else .ok (some value, "")

/-- Modelled from the spec (§4.1): `secret.DecryptS`.  Non-secret kinds
always yield the clear column; secret kinds yield the decrypted
plaintext when `wantPlaintext` is set and otherwise the redaction
sentinel ("do not return usable plaintext"). -/
def DecryptS (t : VariableType) (clearVal : Option String)
    (cipherVal : String) (wantPlaintext : Bool) : Except String String :=
  if NeedPlaceholder t = false then .ok (clearVal.getD "")
  else if wantPlaintext then
    match decryptStr cipherVal with
    | some p => .ok p
    | none => .error "unable to decrypt secret value"
  else .ok PasswordPlaceholder

/-- One hexadecimal digit character (`0`-`9`, `a`-`f`). -/
def hexDigit (n : Nat) : Char :=
  Char.ofNat (if n < 10 then 48 + n else 87 + n)

/-- Value of one hexadecimal digit character. -/
def hexVal (c : Char) : Option Nat :=
  if 48 ≤ c.toNat ∧ c.toNat ≤ 57 then some (c.toNat - 48)
  else if 97 ≤ c.toNat ∧ c.toNat ≤ 102 then some (c.toNat - 87)
  else none

/-- Fixed-width (six digit) hexadecimal form of one character's code
point. -/
def encodeCharHex (c : Char) : List Char :=
  let n := c.toNat
  [hexDigit (n / 1048576 % 16), hexDigit (n / 65536 % 16),
   hexDigit (n / 4096 % 16), hexDigit (n / 256 % 16),
   hexDigit (n / 16 % 16), hexDigit (n % 16)]

/-- Hexadecimal form of a character sequence. -/
def encodeChars : List Char → List Char
  | [] => []
  | c :: cs => encodeCharHex c ++ encodeChars cs

/-- Inverse of `encodeChars`; fails on input that is not a sequence of
six-digit groups decoding to valid characters. -/
def decodeHexChars : List Char → Option (List Char)
  | a :: b :: c :: d :: e :: f :: rest =>
      match hexVal a, hexVal b, hexVal c, hexVal d, hexVal e, hexVal f with
      | some va, some vb, some vc, some vd, some ve, some vf =>
          let n := va * 1048576 + vb * 65536 + vc * 4096 +
            vd * 256 + ve * 16 + vf
          let ch := Char.ofNat n
          if ch.toNat = n then (decodeHexChars rest).map (ch :: ·)
          else none
      | _, _, _, _, _, _ => none
  | [] => some []
  | _ => none

/-- Modelled from the spec: the text-safe encoding primitive
(`base64.StdEncoding.EncodeToString` in the code), an external
collaborator specified at its interface: an injective, exactly
invertible text encoding of a value.  Modelled as fixed-width
hexadecimal of each character's code point. -/
def base64Encode (s : String) : String :=
  String.mk (encodeChars s.data)

/-- Modelled from the spec: the text-safe decoding primitive
(`base64.StdEncoding.DecodeString` in the code); fails on a malformed
token. -/
def base64Decode (s : String) : Option String :=
  (decodeHexChars s.data).map String.mk

/-- One variable as surfaced by the store (`sdk.Variable`): identifier,
name, logical value and declared kind. -/
structure Variable where
  id : Int
  name : String
  value : String
  type : VariableType
deriving DecidableEq, Repr

/-- Modelled from the spec: the serialized snapshot block (the
`json.Marshal` payload), an external serialization primitive specified
at its interface.  A block is either a well-formed serialization of a
variable list or malformed. -/
inductive Blob where
  | vars (l : List Variable)
  | malformed
deriving DecidableEq, Repr

/-- Modelled from the spec: `json.Marshal` at its interface. -/
def jsonMarshal (l : List Variable) : Blob := .vars l

/-- Modelled from the spec: `json.Unmarshal` at its interface; fails on
a malformed block. -/
def jsonUnmarshal : Blob → Except String (List Variable)
  | .vars l => .ok l
  | .malformed => .error "unexpected end of JSON input"

/-- Errors surfaced by the store: the package's `ErrNoVariable`, the
sdk's `ErrVariableExists`, the driver's `sql.ErrNoRows`, and any other
error carried as its message. -/
inductive GoErr where
  | ErrNoVariable
  | ErrVariableExists
  | ErrNoRows
  | err (msg : String)
deriving DecidableEq, Repr

/-- One row of the `application_variable` table: surrogate id, owning
application, name, nullable clear column, cipher column, kind column. -/
structure VarRow where
  id : Int
  applicationID : Int
  varName : String
  varValue : Option String
  cipherValue : String
  varType : String
deriving DecidableEq, Repr

/-- One row of the `application` table (`last_modified` is the
timestamp this store bumps on mutation). -/
structure ApplicationRow where
  id : Int
  projectID : Int
  name : String
  lastModified : Nat
deriving DecidableEq, Repr

/-- One row of the `project` table. -/
structure ProjectRow where
  id : Int
  projectkey : String
deriving DecidableEq, Repr

/-- One row of the `application_variable_audit` table: id, owning
application, insertion timestamp (`versionned`), serialized snapshot
block and author. -/
structure AuditRow where
  id : Int
  applicationID : Int
  versionned : Nat
  data : Blob
  author : String
deriving DecidableEq, Repr

/-- The relational state the file operates on: the four tables, the
storage-assigned surrogate-id counters, and the current clock
(`NOW()` / `current_timestamp`). -/
structure DBState where
  projects : List ProjectRow
  applications : List ApplicationRow
  varRows : List VarRow
  audits : List AuditRow
  nextVariableID : Int
  nextAuditID : Int
  now : Nat
deriving DecidableEq, Repr

/-- The join used by every name/key scoped query: the owning
application row exists under the given name, inside the project with
the given key, and has the given identifier. -/
def ownerMatch (db : DBState) (key appName : String) (appID : Int) : Bool :=
  db.applications.any fun a =>
    a.id == appID && a.name == appName &&
      db.projects.any fun p => p.id == a.projectID && p.projectkey == key

instance {ε α : Type} [DecidableEq ε] [DecidableEq α] :
    DecidableEq (Except ε α) := fun
  | .ok a, .ok b =>
      if h : a = b then isTrue (by rw [h])
      else isFalse (by intro hc; cases hc; exact h rfl)
  | .ok _, .error _ => isFalse (by intro hc; cases hc)
  | .error _, .ok _ => isFalse (by intro hc; cases hc)
  | .error e, .error f =>
      if h : e = f then isTrue (by rw [h])
      else isFalse (by intro hc; cases hc; exact h rfl)

/-- Lexicographic order on character sequences, by code point. -/
def charListLe : List Char → List Char → Bool
  | [], _ => true
  | _ :: _, [] => false
  | a :: as, b :: bs =>
      if a.toNat < b.toNat then true
      else if b.toNat < a.toNat then false
      else charListLe as bs

/-- The collation the storage engine applies to `ORDER BY var_name`. -/
def stringLe (a b : String) : Bool := charListLe a.data b.data

/-- Insertion into a run sorted by `le`. -/
def orderedInsertBy {α : Type} (le : α → α → Bool) (a : α) :
    List α → List α
  | [] => [a]
  | b :: l => if le a b then a :: b :: l else b :: orderedInsertBy le a l

/-- Insertion sort by `le` (the embedding of the queries' ORDER BY). -/
def insertionSortBy {α : Type} (le : α → α → Bool) : List α → List α
  | [] => []
  | b :: l => orderedInsertBy le b (insertionSortBy le l)

/-- `ORDER BY var_name` on a variable query result. -/
def sortVarRows (l : List VarRow) : List VarRow :=
  insertionSortBy (fun a b => stringLe a.varName b.varName) l

/-- `ORDER BY versionned DESC` on an audit query result. -/
def sortAuditsDesc (l : List AuditRow) : List AuditRow :=
  insertionSortBy (fun a b => Nat.ble b.versionned a.versionned) l

/-- The functional-argument record of `GetAllVariable` /
`GetAllVariableByID`. -/
structure structarg where
  clearsecret : Bool
  encryptsecret : Bool
deriving DecidableEq, Repr

/-- The functional arguments of the file.  The Go type is a function on
`structarg`; the file exports exactly two constructors
(`WithClearPassword`, `WithEncryptPassword`), embedded here as the
closed sum of those constructors. -/
inductive FuncArg where
  | WithClearPassword
  | WithEncryptPassword
deriving DecidableEq, Repr

/-- Action of one functional argument on the mode record:
`WithClearPassword` sets `clearsecret`, `WithEncryptPassword` sets
`encryptsecret`. -/
def applyFuncArg (c : structarg) : FuncArg → structarg
  | .WithClearPassword => { c with clearsecret := true }
  | .WithEncryptPassword => { c with encryptsecret := true }

/-- Modelled from the spec (Invariant 3): `UpdateLastModified`, defined
elsewhere in the `application` package — sets the owning application's
`last_modified` to the current timestamp. -/
def UpdateLastModified (db : DBState) (applicationID : Int) :
    Except GoErr DBState :=
  .ok { db with applications := (db.applications.map fun a =>
          if a.id == applicationID then { a with lastModified := db.now }
          else a) }

/-- The rows returned by `GetAllVariable`'s query: variables joined to
the application named `appName` in the project keyed `key`, ordered by
name. -/
def applicationVariableRows (db : DBState) (key appName : String) :
    List VarRow :=
  sortVarRows (db.varRows.filter fun r =>
    ownerMatch db key appName r.applicationID)

/-- The row-scan loop of `GetAllVariable`: with `encryptsecret` set, a
secret-kind row yields the raw cipher column; otherwise the value goes
through `secret.DecryptS`. -/
def scanAllRows (c : structarg) : List VarRow → Except GoErr (List Variable)
  | [] => .ok []
  | r :: rest =>
      let t := VariableTypeFromString r.varType
      if c.encryptsecret && NeedPlaceholder t then
        match scanAllRows c rest with
        | .error e => .error e
        | .ok vs =>
            .ok ({ id := r.id, name := r.varName, value := r.cipherValue,
                   type := t } :: vs)
      else
        match DecryptS t r.varValue r.cipherValue c.clearsecret with
        | .error e => .error (.err e)
        | .ok value =>
            match scanAllRows c rest with
            | .error e => .error e
            | .ok vs =>
                .ok ({ id := r.id, name := r.varName, value := value,
                       type := t } :: vs)

/-- `GetAllVariable`: all variables of the application named `appName`
in project `key`, under the mode selected by `args`. -/
def GetAllVariable (db : DBState) (key appName : String)
    (args : List FuncArg) : Except GoErr (List Variable) :=
  let c := args.foldl applyFuncArg { clearsecret := false, encryptsecret := false }
  scanAllRows c (applicationVariableRows db key appName)

/-- The re-encoding loop of `CreateAudit`: every secret-kind entry's
value (the cipher blob, read in encrypted-token mode) is re-encoded
into its text-safe form. -/
def auditEncodeVar (v : Variable) : Variable :=
  if NeedPlaceholder v.type then { v with value := base64Encode v.value }
  else v

/-- `CreateAudit`: snapshot the application's current variable
collection (read in encrypted-token mode, secrets re-encoded text-safe),
serialize it, and insert one audit row stamped `NOW()` with the calling
user as author. -/
def CreateAudit (db : DBState) (key appName : String) (appID : Int)
    (author : String) : Except GoErr DBState :=
  match GetAllVariable db key appName [.WithEncryptPassword] with
  | .error e => .error e
  | .ok vs =>
      let data := jsonMarshal (vs.map auditEncodeVar)
      .ok { db with
              audits := (db.audits ++
                [{ id := db.nextAuditID, applicationID := appID,
                   versionned := db.now, data := data, author := author }]),
              nextAuditID := db.nextAuditID + 1 }

/-- The decode loop of `GetAudit`: every secret-kind entry's value is
base64-decoded (no decryption step follows). -/
def decodeAuditVariables : List Variable → Except GoErr (List Variable)
  | [] => .ok []
  | v :: vs =>
      if NeedPlaceholder v.type then
        match base64Decode v.value with
        | some d =>
            match decodeAuditVariables vs with
            | .error e => .error e
            | .ok rest => .ok ({ v with value := d } :: rest)
        | none => .error (.err "illegal base64 data")
      else
        match decodeAuditVariables vs with
        | .error e => .error e
        | .ok rest => .ok (v :: rest)

/-- `GetAudit`: fetch the audit row with the given identifier for the
given owner (first row of the ordered query), deserialize its block and
base64-decode every secret-kind entry. -/
def GetAudit (db : DBState) (key appName : String) (auditID : Int) :
    Except GoErr (List Variable) :=
  let rows := sortAuditsDesc (db.audits.filter fun a =>
    ownerMatch db key appName a.applicationID && a.id == auditID)
  match rows.head? with
  | none => .error .ErrNoRows
  | some row =>
      match jsonUnmarshal row.data with
      | .error e => .error (.err e)
      | .ok vs => decodeAuditVariables vs

/-- One audit entry as surfaced by `GetVariableAudit`
(`sdk.VariableAudit`); `vars` is the deserialized, redacted snapshot. -/
structure VariableAudit where
  id : Int
  versionned : Nat
  author : String
  vars : List Variable
deriving DecidableEq, Repr

/-- The row loop of `GetVariableAudit`: deserialize each block and
replace every secret-kind entry's value with the redaction sentinel. -/
def collectAudits : List AuditRow → Except GoErr (List VariableAudit)
  | [] => .ok []
  | row :: rest =>
      match jsonUnmarshal row.data with
      | .error e => .error (.err e)
      | .ok vs =>
          let redacted := vs.map fun v =>
            if NeedPlaceholder v.type then { v with value := PasswordPlaceholder }
            else v
          match collectAudits rest with
          | .error e => .error e
          | .ok more =>
              .ok ({ id := row.id, versionned := row.versionned,
                     author := row.author, vars := redacted } :: more)

/-- `GetVariableAudit`: every audit row of the owner in
reverse-chronological order, snapshots deserialized and redacted. -/
def GetVariableAudit (db : DBState) (key appName : String) :
    Except GoErr (List VariableAudit) :=
  collectAudits (sortAuditsDesc (db.audits.filter fun a =>
    ownerMatch db key appName a.applicationID))

/-- `LoadVariable`: point lookup by owning application id and name
(`sql.ErrNoRows` when nothing matches).  Unlike `GetAllVariable`, the
source scans the nullable `var_value` column into a plain string
(`Scan(&v.ID, &v.Name, &v.Value, &v.Type)`), and `database/sql` fails
with a conversion error when that column is NULL — which it is for
every secret-kind row the store writes (`EncryptS` leaves the clear
column empty/null for secret kinds).  The redaction branch that
follows the scan is therefore reachable only for a row whose clear
column is non-null. -/
def LoadVariable (db : DBState) (appID : Int) (varName : String) :
    Except GoErr Variable :=
  match (db.varRows.filter fun r =>
      r.applicationID == appID && r.varName == varName).head? with
  | none => .error .ErrNoRows
  | some r =>
      match r.varValue with
      | none =>
          .error (.err "sql: Scan error converting NULL to string is unsupported")
      | some clearVal =>
          let v : Variable :=
            { id := r.id, name := r.varName, value := clearVal,
              type := VariableTypeFromString r.varType }
          if NeedPlaceholder v.type then
            .ok { v with value := PasswordPlaceholder }
          else .ok v

/-- The rows returned by `GetAllVariableByID`'s query: variables of the
given application id, ordered by name. -/
def applicationVariableRowsByID (db : DBState) (applicationID : Int) :
    List VarRow :=
  sortVarRows (db.varRows.filter fun r => r.applicationID == applicationID)

/-- The row-scan loop of `GetAllVariableByID`: unlike `scanAllRows`, it
never consults `encryptsecret` — every value goes through
`secret.DecryptS`. -/
def scanAllRowsByID (c : structarg) :
    List VarRow → Except GoErr (List Variable)
  | [] => .ok []
  | r :: rest =>
      let t := VariableTypeFromString r.varType
      match DecryptS t r.varValue r.cipherValue c.clearsecret with
      | .error e => .error (.err e)
      | .ok value =>
          match scanAllRowsByID c rest with
          | .error e => .error e
          | .ok vs =>
              .ok ({ id := r.id, name := r.varName, value := value,
                     type := t } :: vs)

/-- `GetAllVariableByID`: all variables of the given application id. -/
def GetAllVariableByID (db : DBState) (applicationID : Int)
    (fargs : List FuncArg) : Except GoErr (List Variable) :=
  let c := fargs.foldl applyFuncArg { clearsecret := false, encryptsecret := false }
  scanAllRowsByID c (applicationVariableRowsByID db applicationID)

/-- Modelled from the spec: the storage layer's execution of
`InsertVariable`'s INSERT.  The `(application_id, var_name)` uniqueness
constraint (Invariant 1) is enforced here and surfaced as a driver
error whose message names the violated constraint
`application_variable_pkey`; otherwise the row is appended with a fresh
surrogate id. -/
def dbExecInsertVariable (db : DBState) (applicationID : Int)
    (name : String) (clear : Option String) (cipher : String) (t : String) :
    Except String DBState :=
  if db.varRows.any fun r =>
      r.applicationID == applicationID && r.varName == name then
    .error "pq: duplicate key value violates unique constraint application_variable_pkey"
  else
    .ok { db with
            varRows := (db.varRows ++
              [{ id := db.nextVariableID, applicationID := applicationID,
                 varName := name, varValue := clear, cipherValue := cipher,
                 varType := t }]),
            nextVariableID := db.nextVariableID + 1 }

/-- Whether `p` is an initial segment of the second list. -/
def startsWithChars (p : List Char) : List Char → Bool
  | [] => p.isEmpty
  | c :: cs =>
      match p with
      | [] => true
      | q :: qs => q == c && startsWithChars qs cs

/-- `strings.Contains` on the underlying character sequences. -/
def stringsContains (p : List Char) : List Char → Bool
  | [] => startsWithChars p []
  | a :: rest => startsWithChars p (a :: rest) || stringsContains p rest

/-- `InsertVariable`: encrypt, attempt the INSERT, classify a
uniqueness-violation error (recognised by substring inspection of the
storage error, after the attempt) as `sdk.ErrVariableExists`, propagate
any other error, and bump `last_modified` on success. -/
def InsertVariable (db : DBState) (applicationID : Int) (vArg : Variable) :
    Except GoErr DBState :=
  match EncryptS vArg.type vArg.value with
  | .error e => .error (.err e)
  | .ok (clear, cipher) =>
      match dbExecInsertVariable db applicationID vArg.name clear cipher
          (VariableTypeToString vArg.type) with
      | .error msg =>
          if stringsContains "application_variable_pkey".data msg.data then
            .error .ErrVariableExists
          else .error (.err msg)
      | .ok db2 => UpdateLastModified db2 applicationID

/-- `UpdateVariable`: a secret-kind update whose incoming value is the
redaction sentinel returns success with no write at all; otherwise
re-encrypt and overwrite the matching row's clear/cipher/kind columns,
fail with `ErrNoVariable` when zero rows matched, and bump
`last_modified` otherwise. -/
def UpdateVariable (db : DBState) (applicationID : Int) (vArg : Variable) :
    Except GoErr DBState :=
  if NeedPlaceholder vArg.type && vArg.value == PasswordPlaceholder then
    .ok db
  else
    match EncryptS vArg.type vArg.value with
    | .error e => .error (.err e)
    | .ok (clear, cipher) =>
        let rowAffected := (db.varRows.filter fun r =>
          r.applicationID == applicationID && r.varName == vArg.name).length
        let db2 := { db with varRows := (db.varRows.map fun r =>
          if r.applicationID == applicationID && r.varName == vArg.name then
            { r with varValue := clear, cipherValue := cipher,
                     varType := VariableTypeToString vArg.type }
          else r) }
        if rowAffected == 0 then .error .ErrNoVariable
        else UpdateLastModified db2 applicationID

/-- `DeleteVariable`, with the DELETE's semantics embedded exactly as
written: `DELETE FROM application_variable USING application WHERE
application.id = $1 AND application_variable.var_name = $2`.  A
variable row is deleted when some `application` row satisfies the WHERE
clause — i.e. when an application with the given id exists and the
row's name matches; the query contains no condition correlating
`application_variable.application_id` with `application.id`.  Fails
with `ErrNoVariable` when zero rows were deleted, bumps
`last_modified` otherwise. -/
def DeleteVariable (db : DBState) (applicationID : Int)
    (variableName : String) : Except GoErr DBState :=
  let usingMatch := db.applications.any fun a => a.id == applicationID
  let rowAffected :=
    if usingMatch then
      (db.varRows.filter fun r => r.varName == variableName).length
    else 0
  let db2 := { db with varRows :=
    (if usingMatch then
      db.varRows.filter (fun r => !(r.varName == variableName))
    else db.varRows) }
  if rowAffected == 0 then .error .ErrNoVariable
  else UpdateLastModified db2 applicationID

/-- `DeleteAllVariable`: wipe the application's variable collection and
unconditionally set the owner's `last_modified`. -/
def DeleteAllVariable (db : DBState) (applicationID : Int) :
    Except GoErr DBState :=
  let db2 := { db with varRows :=
    (db.varRows.filter fun r => !(r.applicationID == applicationID)) }
  .ok { db2 with applications := (db2.applications.map fun a =>
          if a.id == applicationID then { a with lastModified := db2.now }
          else a) }

/-- The per-row result of the encrypted-token read mode (`GetAllVariable`
with `WithEncryptPassword`): a secret-kind row surfaces its raw cipher
column, any other row its clear column. -/
def tokenViewRow (r : VarRow) : Variable :=
  let t := VariableTypeFromString r.varType
  if NeedPlaceholder t then
    { id := r.id, name := r.varName, value := r.cipherValue, type := t }
  else
    { id := r.id, name := r.varName, value := r.varValue.getD "", type := t }

/-- The per-row result of the default (redacted) read mode: a
secret-kind row surfaces the redaction sentinel, any other row its
clear column. -/
def redactedViewRow (r : VarRow) : Variable :=
  let t := VariableTypeFromString r.varType
  if NeedPlaceholder t then
    { id := r.id, name := r.varName, value := PasswordPlaceholder, type := t }
  else
    { id := r.id, name := r.varName, value := r.varValue.getD "", type := t }

/-- Concrete state used by the witnesses and counterexamples: one
project `KEY` with two applications; application 1 (`app`) owns a
secret `DB_PASS` (plaintext `s3cr3t`, stored encrypted) and a plain
`ENV`; application 2 (`other`) owns its own secret also named
`DB_PASS`. -/
def dbEx : DBState :=
  { projects := [{ id := 1, projectkey := "KEY" }],
    applications := [{ id := 1, projectID := 1, name := "app", lastModified := 0 },
                     { id := 2, projectID := 1, name := "other", lastModified := 0 }],
    varRows := [{ id := 1, applicationID := 1, varName := "DB_PASS",
                  varValue := none, cipherValue := encryptStr "s3cr3t",
                  varType := "password" },
                { id := 2, applicationID := 1, varName := "ENV",
                  varValue := some "prod", cipherValue := "",
                  varType := "string" },
                { id := 3, applicationID := 2, varName := "DB_PASS",
                  varValue := none, cipherValue := encryptStr "other-secret",
                  varType := "password" }],
    audits := [], nextVariableID := 4, nextAuditID := 1, now := 7 }

/-- `dbEx` after `CreateAudit dbEx "KEY" "app" 1 "alice"`: one audit row
whose block serializes application 1's collection with the secret value
held as the text-safe form of its cipher blob. -/
def dbExAudited : DBState :=
  { dbEx with
      audits := [{ id := 1, applicationID := 1, versionned := 7,
                   data := jsonMarshal
                     [{ id := 1, name := "DB_PASS",
                        value := base64Encode (encryptStr "s3cr3t"),
                        type := .PasswordVariable },
                      { id := 2, name := "ENV", value := "prod",
                        type := .StringVariable }],
                   author := "alice" }],
      nextAuditID := 2 }

/-- `dbEx` after `DeleteVariable dbEx 1 "DB_PASS"`: both `DB_PASS` rows
are gone — application 2's included — and application 1's
`last_modified` is bumped. -/
def dbExDeleted : DBState :=
  { dbEx with
      varRows := [{ id := 2, applicationID := 1, varName := "ENV",
                    varValue := some "prod", cipherValue := "",
                    varType := "string" }],
      applications := [{ id := 1, projectID := 1, name := "app", lastModified := 7 },
                       { id := 2, projectID := 1, name := "other", lastModified := 0 }] }

/-- `dbEx` with a single stored snapshot whose serialized block is
malformed. -/
def dbExMalformed : DBState :=
  { dbEx with
      audits := [{ id := 1, applicationID := 1, versionned := 3,
                   data := .malformed, author := "bob" }] }

theorem hexVal_hexDigit (n : Nat) (h : n < 16) :
    hexVal (hexDigit n) = some n := by
  interval_cases n <;> rfl

theorem char_toNat_lt (c : Char) : c.toNat < 16777216 := by
  have h : c.val.toNat < 55296 ∨ 57344 ≤ c.val.toNat ∧ c.val.toNat < 1114112 :=
    c.valid
  simp only [Char.toNat]
  omega

theorem decodeHexChars_encodeChars (l : List Char) :
    decodeHexChars (encodeChars l) = some l := by
  induction l with
  | nil => rfl
  | cons c cs ih =>
      have hlt : c.toNat < 16777216 := char_toNat_lt c
      show decodeHexChars (encodeCharHex c ++ encodeChars cs) = some (c :: cs)
      simp only [encodeCharHex, List.cons_append, List.nil_append,
        decodeHexChars]
      rw [hexVal_hexDigit _ (Nat.mod_lt _ (by omega)),
        hexVal_hexDigit _ (Nat.mod_lt _ (by omega)),
        hexVal_hexDigit _ (Nat.mod_lt _ (by omega)),
        hexVal_hexDigit _ (Nat.mod_lt _ (by omega)),
        hexVal_hexDigit _ (Nat.mod_lt _ (by omega)),
        hexVal_hexDigit _ (Nat.mod_lt _ (by omega))]
      have hsum : c.toNat / 1048576 % 16 * 1048576 + c.toNat / 65536 % 16 * 65536 +
          c.toNat / 4096 % 16 * 4096 + c.toNat / 256 % 16 * 256 +
          c.toNat / 16 % 16 * 16 + c.toNat % 16 = c.toNat := by omega
      simp [hsum, Char.ofNat_toNat, ih]

theorem base64Decode_base64Encode (s : String) :
    base64Decode (base64Encode s) = some s := by
  cases s with
  | mk data =>
      show Option.map String.mk (decodeHexChars (encodeChars data)) = some ⟨data⟩
      rw [decodeHexChars_encodeChars]
      rfl

theorem encodeChars_length (l : List Char) :
    (encodeChars l).length = 6 * l.length := by
  induction l with
  | nil => rfl
  | cons c cs ih =>
      simp [encodeChars, encodeCharHex, ih]
      omega

theorem decryptStr_encryptStr (p : String) :
    decryptStr (encryptStr p) = some p := by
  cases p with
  | mk data => rfl

theorem decryptStr_some_length (c p : String) (h : decryptStr c = some p) :
    c.data.length = p.data.length + 4 := by
  unfold decryptStr at h
  split at h
  · rename_i rest heq
    simp only [Option.some.injEq] at h
    subst h
    simp [heq]
  · cases h

theorem base64Encode_ne_of_decrypt (cipher p : String)
    (h : decryptStr cipher = some p) : base64Encode cipher ≠ p := by
  intro he
  have h1 : (base64Encode cipher).data.length = 6 * cipher.data.length := by
    simp only [base64Encode]
    exact encodeChars_length cipher.data
  have h2 : cipher.data.length = p.data.length + 4 := decryptStr_some_length cipher p h
  have h3 : (base64Encode cipher).data.length = p.data.length := by rw [he]
  omega

theorem mem_orderedInsertBy {α : Type} (le : α → α → Bool) (a x : α)
    (l : List α) : x ∈ orderedInsertBy le a l ↔ x = a ∨ x ∈ l := by
  induction l with
  | nil => simp [orderedInsertBy]
  | cons b t ih =>
      by_cases hle : le a b = true
      · simp [orderedInsertBy, hle]
      · simp only [orderedInsertBy, if_neg hle, List.mem_cons, ih]
        tauto

theorem mem_insertionSortBy {α : Type} (le : α → α → Bool) (x : α)
    (l : List α) : x ∈ insertionSortBy le l ↔ x ∈ l := by
  induction l with
  | nil => simp [insertionSortBy]
  | cons b t ih =>
      simp only [insertionSortBy, mem_orderedInsertBy, ih, List.mem_cons]

theorem foldl_applyFuncArg_clearsecret (l : List FuncArg) :
    ∀ c c' : structarg, c.clearsecret = c'.clearsecret →
      (l.foldl applyFuncArg c).clearsecret =
        (l.foldl applyFuncArg c').clearsecret := by
  induction l with
  | nil => intro c c' h; exact h
  | cons a t ih =>
      intro c c' h
      cases a <;> exact ih _ _ (by simp [applyFuncArg, h])

theorem foldl_applyFuncArg_encryptsecret_mono (l : List FuncArg) :
    ∀ c : structarg, c.encryptsecret = true →
      (l.foldl applyFuncArg c).encryptsecret = true := by
  induction l with
  | nil => intro c h; exact h
  | cons a t ih =>
      intro c h
      cases a <;> exact ih _ (by simp [applyFuncArg, h])

theorem foldl_applyFuncArg_encryptsecret_of_mem (l : List FuncArg)
    (c : structarg) (h : FuncArg.WithEncryptPassword ∈ l) :
    (l.foldl applyFuncArg c).encryptsecret = true := by
  induction l generalizing c with
  | nil => cases h
  | cons a t ih =>
      rcases List.mem_cons.mp h with h | h
      · cases h
        exact foldl_applyFuncArg_encryptsecret_mono t _ rfl
      · exact ih _ h

theorem scanAllRows_encrypt (c : structarg) (h : c.encryptsecret = true)
    (rows : List VarRow) :
    scanAllRows c rows = .ok (rows.map tokenViewRow) := by
  induction rows with
  | nil => rfl
  | cons r rest ih =>
      cases hsec : NeedPlaceholder (VariableTypeFromString r.varType) with
      | true => simp [scanAllRows, tokenViewRow, h, hsec, ih]
      | false => simp [scanAllRows, tokenViewRow, DecryptS, h, hsec, ih]

theorem scanAllRows_default (rows : List VarRow) :
    scanAllRows { clearsecret := false, encryptsecret := false } rows =
      .ok (rows.map redactedViewRow) := by
  induction rows with
  | nil => rfl
  | cons r rest ih =>
      cases hsec : NeedPlaceholder (VariableTypeFromString r.varType) with
      | true => simp [scanAllRows, redactedViewRow, DecryptS, hsec, ih]
      | false => simp [scanAllRows, redactedViewRow, DecryptS, hsec, ih]

theorem scanAllRowsByID_clearsecret_congr (rows : List VarRow) :
    ∀ c c' : structarg, c.clearsecret = c'.clearsecret →
      scanAllRowsByID c rows = scanAllRowsByID c' rows := by
  induction rows with
  | nil => intro c c' _; rfl
  | cons r rest ih =>
      intro c c' h
      simp only [scanAllRowsByID, h, ih _ _ h]

theorem decodeAuditVariables_map_encode (vs : List Variable) :
    decodeAuditVariables (vs.map auditEncodeVar) = .ok vs := by
  induction vs with
  | nil => rfl
  | cons v t ih =>
      cases hsec : NeedPlaceholder v.type with
      | true =>
          have hv : auditEncodeVar v = { v with value := base64Encode v.value } := by
            simp [auditEncodeVar, hsec]
          simp only [List.map_cons, hv, decodeAuditVariables, hsec,
            base64Decode_base64Encode, ih]
          simp
      | false =>
          have hv : auditEncodeVar v = v := by simp [auditEncodeVar, hsec]
          simp only [List.map_cons, hv, decodeAuditVariables, hsec, ih]
          simp

theorem ownerMatch_set_audits (db : DBState) (x : List AuditRow) (y : Int)
    (key appName : String) (appID : Int) :
    ownerMatch { db with audits := x, nextAuditID := y } key appName appID =
      ownerMatch db key appName appID := rfl

theorem tokenViewRow_type (r : VarRow) :
    (tokenViewRow r).type = VariableTypeFromString r.varType := by
  unfold tokenViewRow
  by_cases h : NeedPlaceholder (VariableTypeFromString r.varType) = true <;>
    simp [h]

theorem auditEncodeVar_type (v : Variable) :
    (auditEncodeVar v).type = v.type := by
  unfold auditEncodeVar
  by_cases h : NeedPlaceholder v.type = true <;> simp [h]

theorem collectAudits_ok_redacted :
    ∀ (rows : List AuditRow) (res : List VariableAudit),
      collectAudits rows = .ok res →
      ∀ a ∈ res, ∀ v ∈ a.vars, NeedPlaceholder v.type = true →
        v.value = PasswordPlaceholder := by
  intro rows
  induction rows with
  | nil =>
      intro res h a ha
      cases h
      cases ha
  | cons row rest ih =>
      intro res h a ha v hv hsec
      unfold collectAudits at h
      cases hj : jsonUnmarshal row.data with
      | error e => rw [hj] at h; cases h
      | ok vs =>
          rw [hj] at h
          cases hc : collectAudits rest with
          | error e => rw [hc] at h; cases h
          | ok more =>
              rw [hc] at h
              cases h
              rcases List.mem_cons.mp ha with rfl | hmem
              · rcases List.mem_map.mp hv with ⟨w, hw, rfl⟩
                cases hws : NeedPlaceholder w.type with
                | true => simp [hws]
                | false =>
                    rw [if_neg (by simp [hws])] at hsec ⊢
                    exact absurd hsec (by simp [hws])
              · exact ih more hc a hmem v hv hsec

theorem collectAudits_error_of_malformed :
    ∀ rows : List AuditRow, (∃ a ∈ rows, a.data = Blob.malformed) →
      ∃ e, collectAudits rows = .error e := by
  intro rows
  induction rows with
  | nil =>
      intro h
      rcases h with ⟨a, ha, _⟩
      cases ha
  | cons row rest ih =>
      intro h
      rcases h with ⟨a, ha, hmal⟩
      cases hj : jsonUnmarshal row.data with
      | error e =>
          exact ⟨.err e, by unfold collectAudits; rw [hj]⟩
      | ok vs =>
          rcases List.mem_cons.mp ha with rfl | hmem
          · rw [hmal] at hj
            cases hj
          · rcases ih ⟨a, hmem, hmal⟩ with ⟨e, he⟩
            exact ⟨e, by unfold collectAudits; rw [hj, he]⟩

/-- C8: `GetAllVariableByID` ignores the encrypted-token option — adding
`WithEncryptPassword` anywhere in the argument list leaves the result
unchanged, because the scan only ever consults `clearsecret` and routes
every value through `secret.DecryptS`. -/
theorem getAllVariableByID_ignores_encrypt_option (db : DBState)
    (applicationID : Int) (l1 l2 : List FuncArg) :
    GetAllVariableByID db applicationID
        (l1 ++ FuncArg.WithEncryptPassword :: l2) =
      GetAllVariableByID db applicationID (l1 ++ l2) := by
  unfold GetAllVariableByID
  apply scanAllRowsByID_clearsecret_congr
  rw [List.foldl_append, List.foldl_append, List.foldl_cons]
  exact foldl_applyFuncArg_clearsecret l2 _ _ rfl

/-- C10: mode precedence in `GetAllVariable` — with both
`WithClearPassword` and `WithEncryptPassword` supplied, every
secret-kind variable surfaces its raw cipher column (encrypted-token
mode wins over plaintext mode), while non-secret variables surface
their clear column exactly as in a call with no options at all. -/
theorem getAllVariable_encrypt_mode_precedence (db : DBState)
    (key appName : String) (args : List FuncArg)
    (hE : FuncArg.WithEncryptPassword ∈ args)
    (hC : FuncArg.WithClearPassword ∈ args) :
    GetAllVariable db key appName args =
      .ok ((applicationVariableRows db key appName).map tokenViewRow) ∧
    GetAllVariable db key appName [] =
      .ok ((applicationVariableRows db key appName).map redactedViewRow) := by
  constructor
  · unfold GetAllVariable
    exact scanAllRows_encrypt _
      (foldl_applyFuncArg_encryptsecret_of_mem args _ hE) _
  · unfold GetAllVariable
    exact scanAllRows_default _

/-- Witness for C10 at a concrete state: with both options, the secret
`DB_PASS` comes back as its raw cipher blob and `ENV` as its plain
value. -/
theorem getAllVariable_encrypt_mode_precedence_witness :
    GetAllVariable dbEx "KEY" "app"
        [.WithClearPassword, .WithEncryptPassword] =
      .ok [{ id := 1, name := "DB_PASS", value := encryptStr "s3cr3t",
             type := .PasswordVariable },
           { id := 2, name := "ENV", value := "prod",
             type := .StringVariable }] :=
  ((getAllVariable_encrypt_mode_precedence dbEx "KEY" "app"
      [.WithClearPassword, .WithEncryptPassword]
      (by decide) (by decide)).1).trans (by decide)

/-- C7 (code bug): `LoadVariable` does not apply redacted mode to the
rows the claim is about.  On the store's own representation of a
secret — `EncryptS` leaves the clear column null, as `dbEx`'s
`DB_PASS` row shows — the scan of `var_value` into a plain string
fails, so loading a matching secret-kind variable returns a driver
conversion error instead of the sentinel; a matching non-secret row
is returned as stored, and a missing name fails with the not-found
error as claimed. -/
theorem loadVariable_scan_error_on_secret :
    EncryptS .PasswordVariable "s3cr3t" = .ok (none, encryptStr "s3cr3t") ∧
    LoadVariable dbEx 1 "DB_PASS" =
      .error (.err "sql: Scan error converting NULL to string is unsupported") ∧
    LoadVariable dbEx 1 "ENV" =
      .ok { id := 2, name := "ENV", value := "prod",
            type := .StringVariable } ∧
    LoadVariable dbEx 1 "MISSING" = .error .ErrNoRows := by
  refine ⟨by decide, by decide, by decide, by decide⟩

/-- C4: sentinel update is a no-op — updating a secret-kind variable
with the redaction sentinel as value returns success with the state
(rows, kinds, `last_modified`) completely unchanged. -/
theorem updateVariable_sentinel_noop (db : DBState) (applicationID : Int)
    (vArg : Variable) (hsec : NeedPlaceholder vArg.type = true)
    (hval : vArg.value = PasswordPlaceholder) :
    UpdateVariable db applicationID vArg = .ok db := by
  unfold UpdateVariable
  rw [hsec, hval]
  simp

/-- Witness for C4 at a concrete state. -/
theorem updateVariable_sentinel_noop_witness :
    UpdateVariable dbEx 1
        { id := 1, name := "DB_PASS", value := PasswordPlaceholder,
          type := .PasswordVariable } = .ok dbEx :=
  updateVariable_sentinel_noop dbEx 1 _ (by decide) rfl

theorem insertVariable_dup (db : DBState) (applicationID : Int)
    (vArg : Variable)
    (hd : (db.varRows.any fun r =>
      r.applicationID == applicationID && r.varName == vArg.name) = true) :
    InsertVariable db applicationID vArg = .error .ErrVariableExists := by
  unfold InsertVariable
  cases hsec : NeedPlaceholder vArg.type <;>
    simp [EncryptS, hsec, dbExecInsertVariable, hd] <;> decide

theorem insertVariable_fresh (db : DBState) (applicationID : Int)
    (vArg : Variable)
    (hd : (db.varRows.any fun r =>
      r.applicationID == applicationID && r.varName == vArg.name) = false) :
    InsertVariable db applicationID vArg =
      .ok { projects := db.projects,
            applications := db.applications.map fun a =>
              if a.id == applicationID then { a with lastModified := db.now }
              else a,
            varRows := db.varRows ++
              [{ id := db.nextVariableID, applicationID := applicationID,
                 varName := vArg.name,
                 varValue :=
                   if NeedPlaceholder vArg.type then none else some vArg.value,
                 cipherValue :=
                   if NeedPlaceholder vArg.type then encryptStr vArg.value
                   else "",
                 varType := VariableTypeToString vArg.type }],
            audits := db.audits, nextVariableID := db.nextVariableID + 1,
            nextAuditID := db.nextAuditID, now := db.now } := by
  unfold InsertVariable
  cases hsec : NeedPlaceholder vArg.type <;>
    simp [EncryptS, hsec, dbExecInsertVariable, hd, UpdateLastModified]

/-- C5: `InsertVariable` fails with the variable-already-exists domain
error exactly when the storage layer reports the
`application_variable_pkey` uniqueness violation for this application
and name (classified from the storage error after the insert attempt);
when no duplicate exists the insert succeeds, appends the encrypted
row, and bumps the owner's `last_modified`. -/
theorem insertVariable_uniqueness (db : DBState) (applicationID : Int)
    (vArg : Variable) :
    (InsertVariable db applicationID vArg = .error .ErrVariableExists ↔
      ∃ r ∈ db.varRows,
        r.applicationID = applicationID ∧ r.varName = vArg.name) ∧
    ((¬ ∃ r ∈ db.varRows,
        r.applicationID = applicationID ∧ r.varName = vArg.name) →
      InsertVariable db applicationID vArg =
        .ok { projects := db.projects,
              applications := db.applications.map fun a =>
                if a.id == applicationID then { a with lastModified := db.now }
                else a,
              varRows := db.varRows ++
                [{ id := db.nextVariableID, applicationID := applicationID,
                   varName := vArg.name,
                   varValue :=
                     if NeedPlaceholder vArg.type then none
                     else some vArg.value,
                   cipherValue :=
                     if NeedPlaceholder vArg.type then encryptStr vArg.value
                     else "",
                   varType := VariableTypeToString vArg.type }],
              audits := db.audits, nextVariableID := db.nextVariableID + 1,
              nextAuditID := db.nextAuditID, now := db.now }) := by
  have hany : (db.varRows.any fun r =>
      r.applicationID == applicationID && r.varName == vArg.name) = true ↔
      ∃ r ∈ db.varRows,
        r.applicationID = applicationID ∧ r.varName = vArg.name := by
    simp [List.any_eq_true]
  constructor
  · constructor
    · intro h
      by_contra hn
      have hd : (db.varRows.any fun r =>
          r.applicationID == applicationID && r.varName == vArg.name) = false := by
        cases hh : db.varRows.any fun r =>
            r.applicationID == applicationID && r.varName == vArg.name
        · rfl
        · exact absurd (hany.mp hh) hn
      rw [insertVariable_fresh db applicationID vArg hd] at h
      cases h
    · intro hex
      exact insertVariable_dup db applicationID vArg (hany.mpr hex)
  · intro hn
    have hd : (db.varRows.any fun r =>
        r.applicationID == applicationID && r.varName == vArg.name) = false := by
      cases hh : db.varRows.any fun r =>
          r.applicationID == applicationID && r.varName == vArg.name
      · rfl
      · exact absurd (hany.mp hh) hn
    exact insertVariable_fresh db applicationID vArg hd

/-- Witness for C5 at a concrete state: inserting a second `ENV` for
application 1 fails with the already-exists domain error. -/
theorem insertVariable_uniqueness_witness :
    InsertVariable dbEx 1
        { id := 0, name := "ENV", value := "x", type := .StringVariable } =
      .error .ErrVariableExists :=
  (insertVariable_uniqueness dbEx 1
      { id := 0, name := "ENV", value := "x", type := .StringVariable }).1.mpr
    ⟨{ id := 2, applicationID := 1, varName := "ENV",
       varValue := some "prod", cipherValue := "", varType := "string" },
     by decide, by decide, by decide⟩

/-- C6: `GetVariableAudit` never exposes secret plaintext — in every
successfully listed snapshot every secret-kind entry's value is the
redaction sentinel — and when the owner has no stored snapshots the
result is the empty list, not an error. -/
theorem getVariableAudit_redacts_and_empty_ok (db : DBState)
    (key appName : String) :
    (∀ audits, GetVariableAudit db key appName = .ok audits →
      ∀ a ∈ audits, ∀ v ∈ a.vars, NeedPlaceholder v.type = true →
        v.value = PasswordPlaceholder) ∧
    ((∀ a ∈ db.audits, ownerMatch db key appName a.applicationID = false) →
      GetVariableAudit db key appName = .ok []) := by
  constructor
  · intro audits h
    exact collectAudits_ok_redacted _ _ h
  · intro hnone
    unfold GetVariableAudit
    have hfil : (db.audits.filter fun a =>
        ownerMatch db key appName a.applicationID) = [] := by
      rw [List.filter_eq_nil_iff]
      intro a ha
      simp [hnone a ha]
    rw [hfil]
    rfl

/-- Witness for C6 at a concrete state with no snapshots: the listing
succeeds with the empty sequence. -/
theorem getVariableAudit_empty_witness :
    GetVariableAudit dbEx "KEY" "app" = .ok [] :=
  (getVariableAudit_redacts_and_empty_ok dbEx "KEY" "app").2 (by decide)

/-- C9: when a stored snapshot's serialized block fails
deserialization, `GetVariableAudit` returns an error (and by its
result type no snapshots at all) instead of skipping the malformed
snapshot. -/
theorem getVariableAudit_fails_on_malformed_snapshot (db : DBState)
    (key appName : String) (a : AuditRow) (ha : a ∈ db.audits)
    (hmatch : ownerMatch db key appName a.applicationID = true)
    (hbad : a.data = Blob.malformed) :
    ∃ e, GetVariableAudit db key appName = .error e := by
  unfold GetVariableAudit
  apply collectAudits_error_of_malformed
  refine ⟨a, ?_, hbad⟩
  unfold sortAuditsDesc
  rw [mem_insertionSortBy]
  exact List.mem_filter.mpr ⟨ha, by simp [hmatch]⟩

/-- Witness for C9 at a concrete state holding one malformed block. -/
theorem getVariableAudit_malformed_witness :
    ∃ e, GetVariableAudit dbExMalformed "KEY" "app" = .error e :=
  getVariableAudit_fails_on_malformed_snapshot dbExMalformed "KEY" "app"
    { id := 1, applicationID := 1, versionned := 3, data := .malformed,
      author := "bob" }
    (by decide) (by decide) rfl

/-- C3: every snapshot stored by `CreateAudit` holds each secret-kind
entry as the text-safe encoding of that variable's cipher column — in
particular the stored value differs from the secret's plaintext
whenever the cipher is a well-formed encryption of it. -/
theorem createAudit_snapshot_keeps_secrets_encoded (db : DBState)
    (key appName : String) (appID : Int) (author : String) (db2 : DBState)
    (h : CreateAudit db key appName appID author = .ok db2) :
    ∃ vs, db2.audits = db.audits ++
        [{ id := db.nextAuditID, applicationID := appID,
           versionned := db.now, data := jsonMarshal vs, author := author }] ∧
      ∀ v ∈ vs, NeedPlaceholder v.type = true →
        ∃ r ∈ applicationVariableRows db key appName,
          v.value = base64Encode r.cipherValue ∧
          ∀ p, decryptStr r.cipherValue = some p → v.value ≠ p := by
  have hg : GetAllVariable db key appName [.WithEncryptPassword] =
      .ok ((applicationVariableRows db key appName).map tokenViewRow) := by
    unfold GetAllVariable
    exact scanAllRows_encrypt _ rfl _
  unfold CreateAudit at h
  rw [hg] at h
  cases h
  refine ⟨((applicationVariableRows db key appName).map tokenViewRow).map
    auditEncodeVar, rfl, ?_⟩
  intro v hv hsec
  rcases List.mem_map.mp hv with ⟨w, hw, rfl⟩
  rcases List.mem_map.mp hw with ⟨r, hr, rfl⟩
  by_cases hrs : NeedPlaceholder (VariableTypeFromString r.varType) = true
  · refine ⟨r, hr, ?_, ?_⟩
    · simp [tokenViewRow, auditEncodeVar, hrs]
    · intro p hp
      have hne := base64Encode_ne_of_decrypt r.cipherValue p hp
      simpa [tokenViewRow, auditEncodeVar, hrs] using hne
  · exfalso
    apply hrs
    rw [auditEncodeVar_type, tokenViewRow_type] at hsec
    exact hsec

/-- Witness for C3 at a concrete state. -/
theorem createAudit_snapshot_witness :
    ∃ vs, dbExAudited.audits = dbEx.audits ++
        [{ id := 1, applicationID := 1,
           versionned := 7, data := jsonMarshal vs, author := "alice" }] ∧
      ∀ v ∈ vs, NeedPlaceholder v.type = true →
        ∃ r ∈ applicationVariableRows dbEx "KEY" "app",
          v.value = base64Encode r.cipherValue ∧
          ∀ p, decryptStr r.cipherValue = some p → v.value ≠ p :=
  createAudit_snapshot_keeps_secrets_encoded dbEx "KEY" "app" 1 "alice"
    dbExAudited (by decide)

theorem getAudit_append_fresh (db : DBState) (key appName : String)
    (row : AuditRow) (y : Int)
    (hfresh : ∀ a ∈ db.audits, a.id ≠ row.id)
    (hown : ownerMatch db key appName row.applicationID = true) :
    GetAudit { db with audits := db.audits ++ [row], nextAuditID := y }
        key appName row.id =
      match jsonUnmarshal row.data with
      | .error e => .error (.err e)
      | .ok vs => decodeAuditVariables vs := by
  unfold GetAudit
  simp only [sortAuditsDesc, ownerMatch_set_audits]
  rw [List.filter_append]
  have h1 : (db.audits.filter fun a =>
      ownerMatch db key appName a.applicationID && a.id == row.id) = [] := by
    rw [List.filter_eq_nil_iff]
    intro a ha
    simp [hfresh a ha]
  have h3 : ([row].filter fun a =>
      ownerMatch db key appName a.applicationID && a.id == row.id) = [row] := by
    simp [hown]
  rw [h1, h3]
  simp only [List.nil_append, insertionSortBy, orderedInsertBy, List.head?]

/-- C1 (amended): an audit round-trip `CreateAudit` followed by
`GetAudit` on the fresh snapshot identifier reproduces exactly the
encrypted-token-mode collection of record time — non-secret values as
their plaintext, each secret value as its raw cipher blob (the
text-safe token is decoded, but nothing is decrypted back to
plaintext). -/
theorem getAudit_after_createAudit_returns_token_snapshot (db : DBState)
    (key appName : String) (appID : Int) (author : String) (db2 : DBState)
    (vs : List Variable)
    (hfresh : ∀ a ∈ db.audits, a.id ≠ db.nextAuditID)
    (hown : ownerMatch db key appName appID = true)
    (hca : CreateAudit db key appName appID author = .ok db2)
    (hvs : GetAllVariable db key appName [.WithEncryptPassword] = .ok vs) :
    GetAudit db2 key appName db.nextAuditID = .ok vs := by
  unfold CreateAudit at hca
  rw [hvs] at hca
  cases hca
  have hr := getAudit_append_fresh db key appName
    (AuditRow.mk db.nextAuditID appID db.now
      (jsonMarshal (vs.map auditEncodeVar)) author)
    (db.nextAuditID + 1) hfresh hown
  exact hr.trans
    (by simp only [jsonMarshal, jsonUnmarshal]; exact decodeAuditVariables_map_encode vs)

/-- Witness for C1 (amended) at a concrete state: the retrieved
snapshot holds `DB_PASS` as its cipher blob and `ENV` as plaintext. -/
theorem getAudit_after_createAudit_witness :
    GetAudit dbExAudited "KEY" "app" 1 =
      .ok [{ id := 1, name := "DB_PASS", value := encryptStr "s3cr3t",
             type := .PasswordVariable },
           { id := 2, name := "ENV", value := "prod",
             type := .StringVariable }] :=
  getAudit_after_createAudit_returns_token_snapshot dbEx "KEY" "app" 1
    "alice" dbExAudited
    [{ id := 1, name := "DB_PASS", value := encryptStr "s3cr3t",
       type := .PasswordVariable },
     { id := 2, name := "ENV", value := "prod", type := .StringVariable }]
    (by decide) (by decide) (by decide) (by decide)

/-- C1 counterexample: the claim as stated is false — after recording a
snapshot of `dbEx`, retrieving it returns the secret `DB_PASS` as the
cipher blob `encryptStr "s3cr3t"`, not the plaintext `"s3cr3t"` that a
plaintext-mode read shows was present at record time; no Secret Codec
decryption happens on retrieval. -/
theorem getAudit_roundtrip_not_plaintext :
    CreateAudit dbEx "KEY" "app" 1 "alice" = .ok dbExAudited ∧
    GetAllVariable dbEx "KEY" "app" [.WithClearPassword] =
      .ok [{ id := 1, name := "DB_PASS", value := "s3cr3t",
             type := .PasswordVariable },
           { id := 2, name := "ENV", value := "prod",
             type := .StringVariable }] ∧
    GetAudit dbExAudited "KEY" "app" 1 =
      .ok [{ id := 1, name := "DB_PASS", value := encryptStr "s3cr3t",
             type := .PasswordVariable },
           { id := 2, name := "ENV", value := "prod",
             type := .StringVariable }] ∧
    encryptStr "s3cr3t" ≠ "s3cr3t" := by
  refine ⟨by decide, by decide, by decide, by decide⟩

/-- C2 (code bug): `DeleteVariable dbEx 1 "DB_PASS"` reports success but
also removes application 2's own `DB_PASS` row — the DELETE's WHERE
clause never correlates `application_variable.application_id` with the
targeted application, so the deletion is not scoped to the owning
application. -/
theorem deleteVariable_deletes_other_applications :
    DeleteVariable dbEx 1 "DB_PASS" = .ok dbExDeleted ∧
    (∃ r ∈ dbEx.varRows, r.applicationID = 2 ∧ r.varName = "DB_PASS") ∧
    ∀ r ∈ dbExDeleted.varRows, r.applicationID ≠ 2 := by
  refine ⟨by decide, ⟨?_, ?_⟩⟩
  · exact ⟨{ id := 3, applicationID := 2, varName := "DB_PASS",
             varValue := none, cipherValue := encryptStr "other-secret",
             varType := "password" }, by decide, rfl, rfl⟩
  · decide

end Cds
